import Mathlib

/-!
# Verification of the AI-in-CLI resolution pipeline

Shallow embedding of the core subsystems of the AI-in-CLI repository:
the command resolver (`src/resolver/command-resolver.ts`), the AI gateway
response parser (`src/core/ai-service.ts`), the safety validator
(`src/safety/safety-validator.ts`), the response cache
(`src/cache/cache-manager.ts`) and the plugin dispatch
(`plugin-manager.ts`).

External collaborators (storage/vault search, plugin rule hooks, the AI
network endpoint, the JSON parser for learning payloads, and the
cryptographic hash used for cache keys) are modelled as oracle functions
carried in environment structures; every piece of in-repository logic is
translated directly from the TypeScript source.

Strings are modelled over their character lists; JavaScript string
operations (`trim`, `toLowerCase`, `includes`, `split`, regular-expression
tests) are given executable ASCII-faithful definitions.
-/

/- ------------------------------------------------------------------ -/
/- Data model (src/types.ts)                                           -/
/- ------------------------------------------------------------------ -/

inductive Platform where
  | windows
  | linux
  | macos
deriving DecidableEq, Repr

structure OS where
  platform : Platform
  arch : String
  shell : Option String
deriving DecidableEq, Repr

structure ResolvedCommand where
  commands : List String
  explanation : String
  tags : List String
  confidence : ℚ
  source : String
  vars : Option (List (String × String))
deriving DecidableEq, Repr

structure SafetyResult where
  blocked : Bool
  warning : Option String
  reason : Option String
  riskLevel : String
deriving DecidableEq, Repr

/-- Vault entry (src/types.ts `CommandEntry`); only the fields the
resolver consumes are modelled. -/
structure CommandEntry where
  id : String
  commands : List String
  description : String
  tags : List String
  confidence : ℚ
  vars : Option (List (String × String))
deriving DecidableEq, Repr

/- ------------------------------------------------------------------ -/
/- JavaScript string primitives (ASCII model)                          -/
/- ------------------------------------------------------------------ -/

/-- JS whitespace characters (ASCII fragment of `\s`). -/
def isWsChar (c : Char) : Bool :=
  c = ' ' || c = '\t' || c = '\n' || c = '\r' || c = Char.ofNat 11 || c = Char.ofNat 12

def jsLowerChar (c : Char) : Char :=
  if 'A' ≤ c ∧ c ≤ 'Z' then Char.ofNat (c.toNat + 32) else c

/-- `String.prototype.toLowerCase` (ASCII model). -/
def jsToLower (s : String) : String :=
  ⟨s.data.map jsLowerChar⟩

def trimChars (l : List Char) : List Char :=
  ((l.dropWhile isWsChar).reverse.dropWhile isWsChar).reverse

/-- `String.prototype.trim` (ASCII model). -/
def jsTrim (s : String) : String :=
  ⟨trimChars s.data⟩

/-- Does `hay` contain `needle` as a contiguous sublist? -/
def hasSub (needle : List Char) : List Char → Bool
  | [] => needle.isEmpty
  | c :: t => needle.isPrefixOf (c :: t) || hasSub needle t

/-- `String.prototype.includes`. -/
def strIncludes (s sub : String) : Bool :=
  hasSub sub.data s.data

/-- `String.prototype.endsWith`. -/
def jsEndsWith (s suffix : String) : Bool :=
  suffix.data.isSuffixOf s.data

/- ------------------------------------------------------------------ -/
/- The multi-step keyword heuristic                                    -/
/- /\bthen\b|\band\b|\bafter that\b|\bfollowed by\b/i                  -/
/- ------------------------------------------------------------------ -/

def isWordChar (c : Char) : Bool :=
  c.isAlpha || c.isDigit || c = '_'

def boundaryPrevOk : Option Char → Bool
  | none => true
  | some c => !isWordChar c

/-- Word boundary after the pattern: the character following the match
is absent or not a word character. -/
def tokenBoundaryAfter (pat s : List Char) : Bool :=
  match s.drop pat.length with
  | [] => true
  | c :: _ => !isWordChar c

/-- Does `\b pat \b` match anywhere in the text, given the character
preceding the current position? (All patterns used start and end with
word characters, so `\b` is exactly a non-word neighbour or the string
edge.) -/
def boundaryMatchFrom (pat : List Char) : Option Char → List Char → Bool
  | prev, [] => boundaryPrevOk prev && pat.isEmpty
  | prev, c :: t =>
      (boundaryPrevOk prev && pat.isPrefixOf (c :: t) && tokenBoundaryAfter pat (c :: t))
      || boundaryMatchFrom pat (some c) t

/-- `/\bthen\b|\band\b|\bafter that\b|\bfollowed by\b/i.test(s)` —
the multi-step request heuristic shared by the resolver and the AI
gateway. -/
def wantsMultipleHeuristic (s : String) : Bool :=
  let l := (jsToLower s).data
  boundaryMatchFrom "then".data none l
  || boundaryMatchFrom "and".data none l
  || boundaryMatchFrom "after that".data none l
  || boundaryMatchFrom "followed by".data none l

/- ------------------------------------------------------------------ -/
/- Resolver (src/resolver/command-resolver.ts)                         -/
/- ------------------------------------------------------------------ -/

/-- External collaborators of `CommandResolver`:
`pluginRules` is `PluginManager.getRules`, `vaultSearch` is
`StorageManager.searchCommands` (`none` models a thrown exception,
caught by `searchVault`), and `ai` is `AIService.generateCommand`. -/
structure ResolverEnv where
  pluginRules : String → OS → Option ResolvedCommand
  vaultSearch : String → Option (List CommandEntry)
  ai : String → OS → Bool → Option ResolvedCommand

/-- `CommandResolver.searchVault`: take the first (best-ranked) result,
treat confidence below 0.6 as a miss. -/
def CommandResolver.searchVault (env : ResolverEnv) (input : String) :
    Option ResolvedCommand :=
  match env.vaultSearch input with
  | none => none
  | some [] => none
  | some (best :: _) =>
      if best.confidence < 6/10 then none
      else some
        { commands := best.commands
          explanation := best.description
          tags := best.tags
          confidence := best.confidence
          source := "vault"
          vars := best.vars }

/-- `CommandResolver.applyRules`: the built-in keyword rules of the
current source (file listing, directory creation, processes, git
status). -/
def CommandResolver.applyRules (input : String) (os : OS) :
    Option ResolvedCommand :=
  if strIncludes input "list files" || strIncludes input "show files" || input = "ls" then
    some
      { commands := [if os.platform = .windows then "dir" else "ls -la"]
        explanation := "List files and directories"
        tags := ["filesystem"]
        confidence := 9/10
        source := "rule"
        vars := none }
  else if strIncludes input "create folder" || strIncludes input "make directory" then
    some
      { commands := [if os.platform = .windows then "mkdir" else "mkdir -p"]
        explanation := "Create a directory"
        tags := ["filesystem"]
        confidence := 9/10
        source := "rule"
        vars := none }
  else if strIncludes input "list processes" || input = "ps" then
    some
      { commands := [if os.platform = .windows then "tasklist" else "ps aux"]
        explanation := "List running processes"
        tags := ["process"]
        confidence := 9/10
        source := "rule"
        vars := none }
  else if strIncludes input "git status" || strIncludes input "check git" then
    some
      { commands := ["git status"]
        explanation := "Show git working tree status"
        tags := ["git"]
        confidence := 95/100
        source := "rule"
        vars := none }
  else none

/-- `CommandResolver.resolve`: plugin rules, then vault (skipped in
suggest mode), then built-in rules (skipped for multi-step requests),
then the AI gateway. -/
def CommandResolver.resolve (env : ResolverEnv) (input : String) (os : OS)
    (learningMode : Bool) (suggestMode : Bool) : Option ResolvedCommand :=
  let rawInput := jsTrim input
  let matchInput := jsToLower rawInput
  let wantsMultiple := wantsMultipleHeuristic matchInput
  match env.pluginRules matchInput os with
  | some r => some { r with source := "rule" }
  | none =>
    match (if !suggestMode then CommandResolver.searchVault env matchInput else none) with
    | some r => some { r with source := "vault" }
    | none =>
      match (if !wantsMultiple then CommandResolver.applyRules matchInput os else none) with
      | some r => some { r with source := "rule" }
      | none => env.ai rawInput os learningMode

/-- The three non-AI tiers of the pipeline as the spec describes them:
first non-null of plugin rules, vault search (skipped in suggest mode)
and built-in rules (skipped for multi-step requests), all fed the
normalized (trimmed, lowercased) input. -/
def resolvePreTiers (env : ResolverEnv) (matchInput : String) (os : OS)
    (suggestMode : Bool) : Option ResolvedCommand :=
  match env.pluginRules matchInput os with
  | some r => some { r with source := "rule" }
  | none =>
    match (if !suggestMode then CommandResolver.searchVault env matchInput else none) with
    | some r => some { r with source := "vault" }
    | none =>
      match (if !wantsMultipleHeuristic matchInput then
               CommandResolver.applyRules matchInput os else none) with
      | some r => some { r with source := "rule" }
      | none => none

/- ------------------------------------------------------------------ -/
/- AI response parsing (src/core/ai-service.ts)                        -/
/- ------------------------------------------------------------------ -/

/-- Index of the first occurrence of `pat` in the list, if any. -/
def findSubIdx (pat : List Char) : List Char → Option Nat
  | [] => if pat.isEmpty then some 0 else none
  | c :: t =>
      if pat.isPrefixOf (c :: t) then some 0
      else (findSubIdx pat t).map (· + 1)

/-- The three-backtick fence marker. -/
def fenceMarker : List Char := [Char.ofNat 96, Char.ofNat 96, Char.ofNat 96]

/-- `replace(/```[\s\S]*?```/g, "")`: repeatedly delete the span from a
fence marker to the next fence marker (lazy match); an unpaired opening
marker matches nothing and is kept. -/
def removeFencedAux : Nat → List Char → List Char
  | 0, l => l
  | fuel + 1, l =>
      match findSubIdx fenceMarker l with
      | none => l
      | some i =>
          let rest := l.drop (i + 3)
          match findSubIdx fenceMarker rest with
          | none => l
          | some j => l.take i ++ removeFencedAux fuel (rest.drop (j + 3))

def removeFenced (l : List Char) : List Char :=
  removeFencedAux (l.length + 1) l

/-- `replace(/`/g, "")`. -/
def removeBackticks (l : List Char) : List Char :=
  l.filter (fun c => c ≠ Char.ofNat 96)

/-- `.split("\n")[0]`. -/
def takeFirstLine (l : List Char) : List Char :=
  l.takeWhile (fun c => c ≠ '\n')

/-- `String.prototype.split` on a non-empty literal (leftmost,
non-overlapping). -/
def splitOnLitAux (pat : List Char) : Nat → List Char → List Char → List (List Char)
  | 0, acc, l => [acc.reverse ++ l]
  | fuel + 1, acc, l =>
      if pat.isPrefixOf l ∧ pat ≠ [] then
        acc.reverse :: splitOnLitAux pat fuel [] (l.drop pat.length)
      else
        match l with
        | [] => [acc.reverse]
        | c :: t => splitOnLitAux pat fuel (c :: acc) t

def splitOnLit (s pat : String) : List String :=
  (splitOnLitAux pat.data (s.data.length + 1) [] s.data).map fun l => (⟨l⟩ : String)

/-- `/\s(&&|;)\s/.test(cleaned)`: a separator token surrounded by one
whitespace character on each side. -/
def sepAfterWs : List Char → Bool
  | '&' :: '&' :: c :: _ => isWsChar c
  | ';' :: c :: _ => isWsChar c
  | _ => false

def hasSepWsChars : List Char → Bool
  | [] => false
  | a :: rest => (isWsChar a && sepAfterWs rest) || hasSepWsChars rest

/-- Length of a separator token (`&&` or `;`) at the head, if any. -/
def sepTokenLen : List Char → Option Nat
  | '&' :: '&' :: _ => some 2
  | ';' :: _ => some 1
  | _ => none

/-- `cleaned.split(/\s*(?:&&|;)\s*/)`: split on every `&&` or `;`
token, discarding the token and the whitespace around it. -/
def splitSepsAux : Nat → List Char → List Char → List (List Char)
  | 0, acc, l => [acc.reverse ++ l]
  | fuel + 1, acc, l =>
      match sepTokenLen l with
      | some n =>
          (acc.dropWhile isWsChar).reverse ::
            splitSepsAux fuel [] ((l.drop n).dropWhile isWsChar)
      | none =>
          match l with
          | [] => [acc.reverse]
          | c :: t => splitSepsAux fuel (c :: acc) t

def splitSeps (s : String) : List String :=
  (splitSepsAux (s.data.length + 1) [] s.data).map fun l => (⟨l⟩ : String)

/-- Names matched by the global regex `/\{(\w+)\}/g`, in match order. -/
def scanVarsAux : Nat → List String → List Char → List String
  | 0, acc, _ => acc
  | _ + 1, acc, [] => acc
  | fuel + 1, acc, '{' :: t =>
      let name := t.takeWhile isWordChar
      match name, t.drop name.length with
      | _ :: _, '}' :: t2 => scanVarsAux fuel (acc ++ [(⟨name⟩ : String)]) t2
      | _, _ => scanVarsAux fuel acc t
  | fuel + 1, acc, _ :: t => scanVarsAux fuel acc t

/-- Insert a placeholder name with empty default, keeping the first
occurrence's position (JS object key semantics). -/
def insertVar (vs : List (String × String)) (n : String) : List (String × String) :=
  if vs.any (fun p => p.1 = n) then vs else vs ++ [(n, "")]

def collectVars (commands : List String) : List (String × String) :=
  (commands.foldl (fun acc cmd => scanVarsAux (cmd.data.length + 1) acc cmd.data) []).foldl
    insertVar []

/-- Effect of spreading the parsed learning-mode JSON payload
(`{ ..., ...learningContent }`) on the fields of `ResolvedCommand`:
each field of the payload, when present, overrides the base value.
Keys outside the `ResolvedCommand` shape are irrelevant to the claims
and are not modelled. -/
structure LearningPayload where
  commandsOv : Option (List String)
  explanationOv : Option String
  tagsOv : Option (List String)
  confidenceOv : Option ℚ
  sourceOv : Option String
  varsOv : Option (Option (List (String × String)))

def applyPayload (rc : ResolvedCommand) (p : LearningPayload) : ResolvedCommand :=
  { commands := p.commandsOv.getD rc.commands
    explanation := p.explanationOv.getD rc.explanation
    tags := p.tagsOv.getD rc.tags
    confidence := p.confidenceOv.getD rc.confidence
    source := p.sourceOv.getD rc.source
    vars := p.varsOv.getD rc.vars }

def jsonMarker : String := "_JSON_"

/-- The command part of the raw model text: everything before the first
`_JSON_` sentinel when learning mode is on. -/
def commandPartOf (response : String) (learningMode : Bool) : String :=
  let raw := jsTrim response
  if learningMode && strIncludes raw jsonMarker then
    jsTrim ((splitOnLit raw jsonMarker).getD 0 "")
  else raw

/-- The learning part of the raw model text (between the first and
second sentinel occurrences), when present. -/
def learningPartOf (response : String) (learningMode : Bool) : Option String :=
  let raw := jsTrim response
  if learningMode && strIncludes raw jsonMarker then
    ((splitOnLit raw jsonMarker).get? 1).map jsTrim
  else none

/-- Cleaning pipeline: strip fenced blocks, strip backticks, take the
first line, trim. -/
def cleanedOf (response : String) (learningMode : Bool) : String :=
  jsTrim ⟨takeFirstLine (removeBackticks (removeFenced (commandPartOf response learningMode).data))⟩

/-- `AIService.parseAIResponse`. `jsonParse` is the oracle for
`JSON.parse` on the learning payload (`none` models a parse failure or
a payload whose spread is a no-op). -/
def AIService.parseAIResponse (jsonParse : String → Option LearningPayload)
    (response : String) (wantsMultiple : Bool) (learningMode : Bool) :
    Option ResolvedCommand :=
  let cleaned := cleanedOf response learningMode
  if cleaned = "" || 180 < cleaned.length || jsEndsWith cleaned "?" then none
  else
    let hasSeparators := hasSepWsChars cleaned.data
    if wantsMultiple && !hasSeparators then none
    else
      let commands := if hasSeparators then splitSeps cleaned else [cleaned]
      let vs := collectVars commands
      let learningContent : Option LearningPayload :=
        match learningPartOf response learningMode with
        | some lp => if learningMode && lp ≠ "" then jsonParse lp else none
        | none => none
      let base : ResolvedCommand :=
        { commands := commands
          explanation := "Command suggested by AI"
          tags := ["ai"]
          confidence := 7/10
          source := "ai"
          vars := if vs.isEmpty then none else some vs }
      some (match learningContent with
            | some p => applyPayload base p
            | none => base)

/-- External collaborators of `AIService.generateCommand`: the response
cache read, provider availability, the network call (as a function of
the request data the prompt is built from) and `JSON.parse`. -/
structure AIEnv where
  cachedResponse : String → OS → Bool → Option String
  providerAvailable : Bool
  aiResponse : String → OS → Bool → Option String
  jsonParse : String → Option LearningPayload

/-- `AIService.generateCommand`: cached response first, then provider
lookup, then the network call; each response is fed to the parser. -/
def AIService.generateCommand (env : AIEnv) (input : String) (osInfo : OS)
    (learningMode : Bool) : Option ResolvedCommand :=
  let wantsMultiple := wantsMultipleHeuristic input
  match env.cachedResponse input osInfo learningMode with
  | some cached => AIService.parseAIResponse env.jsonParse cached wantsMultiple learningMode
  | none =>
      if !env.providerAvailable then none
      else
        match env.aiResponse input osInfo learningMode with
        | none => none
        | some response =>
            AIService.parseAIResponse env.jsonParse response wantsMultiple learningMode

/- ------------------------------------------------------------------ -/
/- Plugin dispatch (plugin-manager.ts)                                 -/
/- ------------------------------------------------------------------ -/

/-- A loaded plugin. Hook functions are modelled with `Except Unit` so
that a thrown exception (`.error ()`) can be distinguished from a
`null` return (`.ok none`); both are skipped by the dispatcher. -/
structure Plugin where
  name : String
  version : String
  getRules? : Option (String → OS → Except Unit (Option ResolvedCommand))
  getSafetyChecks? : Option (ResolvedCommand → Except Unit (Option SafetyResult))

/-- `PluginManager.getSafetyChecks`: first plugin whose hook returns a
non-null result wins; missing hooks, exceptions and null returns are
skipped. -/
def PluginManager.getSafetyChecks (plugins : List Plugin)
    (command : ResolvedCommand) : Option SafetyResult :=
  match plugins with
  | [] => none
  | p :: rest =>
      match p.getSafetyChecks? with
      | none => PluginManager.getSafetyChecks rest command
      | some f =>
          match f command with
          | .error _ => PluginManager.getSafetyChecks rest command
          | .ok none => PluginManager.getSafetyChecks rest command
          | .ok (some r) => some r

/-- A plugin contributes nothing to the safety check of `rc`: no hook,
a thrown exception, or a null return. -/
def pluginSafetyMiss (p : Plugin) (rc : ResolvedCommand) : Prop :=
  match p.getSafetyChecks? with
  | none => True
  | some f => f rc = .error () ∨ f rc = .ok none

/- ------------------------------------------------------------------ -/
/- Regular-expression engine for the safety patterns                   -/
/- ------------------------------------------------------------------ -/

/-- Syntax of the regular expressions used by the safety validator:
literals, `\s`, `.`, concatenation, alternation, `*` and `$`. -/
inductive RE where
  | eps
  | ch (c : Char)
  | ws
  | wild
  | seq (a b : RE)
  | alt (a b : RE)
  | star (a : RE)
  | eos
deriving Repr

/-- Backtracking matcher in continuation style, with explicit fuel so
that the kernel can evaluate it. `k` receives the rest of the input
after a successful match of `r` at the head. -/
def reMatch : Nat → RE → List Char → (List Char → Bool) → Bool
  | 0, _, _, _ => false
  | _ + 1, .eps, s, k => k s
  | _ + 1, .ch c, s, k =>
      match s with
      | [] => false
      | x :: t => x = c && k t
  | _ + 1, .ws, s, k =>
      match s with
      | [] => false
      | x :: t => isWsChar x && k t
  | _ + 1, .wild, s, k =>
      match s with
      | [] => false
      | x :: t => x ≠ '\n' && x ≠ '\r' && k t
  | fuel + 1, .seq a b, s, k => reMatch fuel a s fun t => reMatch fuel b t k
  | fuel + 1, .alt a b, s, k => reMatch fuel a s k || reMatch fuel b s k
  | fuel + 1, .star a, s, k =>
      k s || reMatch fuel a s fun t =>
        decide (t.length < s.length) && reMatch fuel (.star a) t k
  | _ + 1, .eos, s, k => s.isEmpty && k s

def reSize : RE → Nat
  | .seq a b => reSize a + reSize b + 1
  | .alt a b => reSize a + reSize b + 1
  | .star a => reSize a + 1
  | _ => 1

def reFuel (r : RE) (s : List Char) : Nat :=
  (reSize r + 2) * (s.length + 2)

/-- Unanchored `RegExp.prototype.test`: try a match at every start
position. -/
def reTestAux (r : RE) : List Char → Bool
  | [] => reMatch (reFuel r []) r [] fun _ => true
  | c :: t =>
      reMatch (reFuel r (c :: t)) r (c :: t) (fun _ => true) || reTestAux r t

def reTest (r : RE) (s : String) : Bool :=
  reTestAux r s.data

def reStr (s : String) : RE :=
  s.data.foldr (fun c r => .seq (.ch c) r) .eps

def reCat (l : List RE) : RE :=
  l.foldr .seq .eps

/-- `\s+` -/
def wsP : RE := .seq .ws (.star .ws)

/-- `\s*` -/
def wsS : RE := .star .ws

/-- `.*` -/
def dotStar : RE := .star .wild

/- ------------------------------------------------------------------ -/
/- Safety validator (src/safety/safety-validator.ts)                   -/
/- ------------------------------------------------------------------ -/

/-- The built-in dangerous patterns (inputs are lowercased before the
test, so the `/i` flag amounts to lowercase literals). -/
def dangerousPatterns : List RE :=
  [ reCat [reStr "rm", wsP, reStr "-rf", wsP, reStr "/", .alt .ws .eos],
    reCat [reStr "rmdir", wsS, reStr "/s", wsS, reStr "/q", wsP, reStr "c:\\\\"],
    reCat [reStr "format", wsP, reStr "c:"],
    reStr "mkfs.",
    reCat [reStr "dd", wsP, reStr "if=", dotStar, reStr "of=/dev/sd"],
    reCat [reStr "kill", wsP, reStr "-9", wsP, reStr "1", .alt .ws .eos],
    reCat [reStr "killall", wsP, reStr "-9"],
    reCat [reStr "taskkill", wsS, reStr "/f"],
    reCat [reStr "docker", wsP, reStr "system", wsP, reStr "prune", wsP, reStr "-af"],
    reCat [reStr "docker", wsP, reStr "rm", wsP, reStr "-vf"],
    reCat [reStr "docker", wsP, reStr "rmi", wsP, reStr "-f"],
    reCat [reStr "iptables", wsP, reStr "-f"],
    reCat [reStr "ip", wsP, reStr "link", wsP, reStr "set", dotStar, reStr "down"],
    reCat [reStr "netsh", dotStar, reStr "reset"],
    reCat [reStr "userdel", wsP, reStr "-r"],
    reCat [reStr "deluser", dotStar, reStr "--remove-home"],
    reCat [reStr ">", wsS, reStr "/etc/passwd"],
    reCat [reStr ">", wsS, reStr "/etc/shadow"],
    reCat [reStr ">", wsS, reStr "/etc/sudoers"],
    reStr "update-grub",
    reStr "grub-install",
    reStr "bootsect" ]

/-- The built-in warning patterns. -/
def warningPatterns : List RE :=
  [ reCat [reStr "rm", wsP, reStr "-rf"],
    reCat [reStr "rmdir", wsS, reStr "/s"],
    reCat [reStr "del", dotStar, reStr "/s"],
    reStr "fdisk",
    reStr "diskpart",
    reCat [reStr "kill", wsP, reStr "-9"],
    reStr "taskkill",
    reCat [reStr "docker", wsP, .alt (reStr "rm") (.alt (reStr "rmi") (reStr "system"))],
    reStr "iptables",
    reStr "netsh",
    reCat [reStr "chmod", wsP, reStr "-r"] ]

/-- `command.toLowerCase().trim()`. -/
def cmdNorm (command : String) : String :=
  jsTrim (jsToLower command)

def matchesDangerous (command : String) : Bool :=
  dangerousPatterns.any fun p => reTest p (cmdNorm command)

def matchesWarning (command : String) : Bool :=
  warningPatterns.any fun p => reTest p (cmdNorm command)

def SafetyValidator.getBlockReason (cmd : String) : String :=
  if reTest (reCat [reStr "rm", wsP, reStr "-rf", wsP, reStr "/", .alt .ws .eos]) cmd then
    "Attempting to delete the root directory."
  else if reTest (reCat [reStr "format", wsP, reStr "c:"]) cmd then
    "Formatting the system drive will destroy all data."
  else if reTest (reCat [reStr "kill", wsP, reStr "-9", wsP, reStr "1"]) cmd then
    "Killing PID 1 will destabilize the system."
  else if reTest (reCat [reStr "docker", wsP, reStr "system", wsP, reStr "prune", wsP, reStr "-af"]) cmd then
    "Docker prune with -af removes all containers and images."
  else "Command contains dangerous operations."

def SafetyValidator.getWarningReason (cmd : String) : String :=
  if reTest (reCat [reStr "rm", wsP, reStr "-rf"]) cmd then
    "Recursive deletion can remove large amounts of data."
  else if reTest (reCat [reStr "kill", wsP, reStr "-9"]) cmd then
    "Force killing processes can cause instability."
  else if reTest (reCat [reStr "chmod", wsP, reStr "-r"]) cmd then
    "Recursive permission changes affect many files."
  else if reTest (reStr "docker") cmd then
    "Docker operations may remove containers or images."
  else "This command may have destructive side effects."

/-- The per-command pattern loop of `validate`: for each command in
order, first the dangerous tier, then the warning tier; the first
finding is returned. -/
def validateCommandList : List String → Option SafetyResult
  | [] => none
  | command :: rest =>
      let cmd := cmdNorm command
      if dangerousPatterns.any (fun p => reTest p cmd) then
        some
          { blocked := true
            warning := none
            reason := some (SafetyValidator.getBlockReason cmd)
            riskLevel := "high" }
      else if warningPatterns.any (fun p => reTest p cmd) then
        some
          { blocked := false
            warning := some (SafetyValidator.getWarningReason cmd)
            reason := none
            riskLevel := "high" }
      else validateCommandList rest

def SafetyValidator.checkContextualDangers : List String → Option SafetyResult
  | [] => none
  | command :: rest =>
      let cmd := cmdNorm command
      if strIncludes cmd "sudo" || strIncludes cmd "runas" then
        some
          { blocked := false
            warning := some "This command requires elevated privileges."
            reason := none
            riskLevel := "medium" }
      else if (strIncludes cmd "curl" || strIncludes cmd "wget") && strIncludes cmd "|"
              && (strIncludes cmd "sh" || strIncludes cmd "bash"
                  || strIncludes cmd "powershell") then
        some
          { blocked := false
            warning := some "Piping remote scripts directly into a shell is dangerous."
            reason := none
            riskLevel := "high" }
      else SafetyValidator.checkContextualDangers rest

/-- `SafetyValidator.validate`: plugin safety rules first, then the
built-in per-command pattern loop, then the contextual checks, then the
low-risk default. -/
def SafetyValidator.validate (plugins : List Plugin)
    (resolvedCommand : ResolvedCommand) : SafetyResult :=
  match PluginManager.getSafetyChecks plugins resolvedCommand with
  | some r => r
  | none =>
      match validateCommandList resolvedCommand.commands with
      | some r => r
      | none =>
          match SafetyValidator.checkContextualDangers resolvedCommand.commands with
          | some r => r
          | none => { blocked := false, warning := none, reason := none, riskLevel := "low" }

/- ------------------------------------------------------------------ -/
/- Response cache (src/cache/cache-manager.ts)                         -/
/- ------------------------------------------------------------------ -/

structure CacheEntry where
  response : String
  timestamp : Nat
  expiresAt : Nat
deriving DecidableEq, Repr

/-- The on-disk store: a JSON object, i.e. an insertion-ordered map
from hex digests to entries. -/
abbrev CacheStore := List (String × CacheEntry)

def platformString : Platform → String
  | .windows => "windows"
  | .linux => "linux"
  | .macos => "macos"

def cacheMaxEntries : Nat := 500

/-- `CacheManager.getCacheKey`: join the request fields with `"|"` and
hash them. The cryptographic digest (`sha256` hex) is modelled by the
oracle `hash`. -/
def CacheManager.getCacheKey (hash : String → String) (input : String) (os : OS)
    (learningMode : Bool) : String :=
  hash (String.intercalate "|"
    [ input, platformString os.platform, os.arch, os.shell.getD "",
      if learningMode then "learning" else "normal",
      "gemini-2.5-flash", "v1" ])

/-- JS object property lookup. -/
def lookupKey : CacheStore → String → Option CacheEntry
  | [], _ => none
  | (k, e) :: t, key => if k = key then some e else lookupKey t key

/-- `cache[key] = entry`: overwrite in place, or append a new key. -/
def upsert : CacheStore → String → CacheEntry → CacheStore
  | [], key, entry => [(key, entry)]
  | (k, e) :: t, key, entry =>
      if k = key then (k, entry) :: t else (k, e) :: upsert t key entry

/-- `delete cache[k]` for every `k` in `keys`. -/
def removeKeys (store : CacheStore) (keys : List String) : CacheStore :=
  store.filter fun p => !keys.contains p.1

/-- Stable insertion by ascending timestamp (ties keep the original
order, as JS `Array.prototype.sort` is stable). -/
def insertByTs (x : String × CacheEntry) : CacheStore → CacheStore
  | [] => [x]
  | y :: l =>
      if x.2.timestamp ≤ y.2.timestamp then x :: y :: l
      else y :: insertByTs x l

def sortByTs : CacheStore → CacheStore
  | [] => []
  | x :: l => insertByTs x (sortByTs l)

/-- `CacheManager.evictOldEntries`: while over the bound, delete the
entries with the oldest timestamps. -/
def CacheManager.evictOldEntries (store : CacheStore) : CacheStore :=
  if store.length ≤ cacheMaxEntries then store
  else
    removeKeys store
      (((sortByTs store).take (store.length - cacheMaxEntries)).map Prod.fst)

/-- `CacheManager.set`: write the entry with the current timestamp and
expiry, then evict. -/
def CacheManager.set (hash : String → String) (cacheDuration : Nat)
    (store : CacheStore) (input : String) (os : OS) (learningMode : Bool)
    (response : String) (now : Nat) : CacheStore :=
  CacheManager.evictOldEntries
    (upsert store (CacheManager.getCacheKey hash input os learningMode)
      { response := response, timestamp := now, expiresAt := now + cacheDuration })

/-- `CacheManager.get`: look the key up; an expired entry is deleted
and reported as a miss. Returns the response (if any) and the store
after the read. -/
def CacheManager.get (hash : String → String) (store : CacheStore) (input : String)
    (os : OS) (learningMode : Bool) (now : Nat) : Option String × CacheStore :=
  let key := CacheManager.getCacheKey hash input os learningMode
  match lookupKey store key with
  | none => (none, store)
  | some entry =>
      if entry.expiresAt < now then (none, removeKeys store [key])
      else (some entry.response, store)

/-- Keys of a store are pairwise distinct (a JS object invariant). -/
def keysNodup (store : CacheStore) : Prop :=
  (store.map Prod.fst).Nodup

/- ------------------------------------------------------------------ -/
/- Shared concrete objects for witnesses                               -/
/- ------------------------------------------------------------------ -/

def osLinux : OS := { platform := .linux, arch := "x64", shell := some "bash" }

def sampleRC : ResolvedCommand :=
  { commands := ["echo hi"]
    explanation := "sample"
    tags := []
    confidence := 1/2
    source := "rule"
    vars := none }

def emptyEnv : ResolverEnv :=
  { pluginRules := fun _ _ => none
    vaultSearch := fun _ => none
    ai := fun _ _ _ => none }


def pluginEnv : ResolverEnv :=
  { emptyEnv with pluginRules := fun _ _ => some sampleRC }

def vaultHalfEntry : CommandEntry :=
  { id := "1", commands := ["ls"], description := "d", tags := [],
    confidence := 1/2, vars := none }

def vaultHalfEnv : ResolverEnv :=
  { emptyEnv with vaultSearch := fun _ => some [vaultHalfEntry] }

def rcRoot : ResolvedCommand :=
  { commands := ["rm -rf /"], explanation := "", tags := [], confidence := 1,
    source := "ai", vars := none }

def rcMixed : ResolvedCommand :=
  { commands := ["rm -rf x", "rm -rf /"], explanation := "", tags := [],
    confidence := 1, source := "ai", vars := none }

def allowResult : SafetyResult :=
  { blocked := false, warning := none, reason := none, riskLevel := "low" }

def blockResult : SafetyResult :=
  { blocked := true, warning := none, reason := some "no", riskLevel := "high" }

def plugNoHook : Plugin :=
  { name := "a", version := "1", getRules? := none, getSafetyChecks? := none }

def plugAllow : Plugin :=
  { name := "b", version := "1", getRules? := none,
    getSafetyChecks? := some fun _ => Except.ok (some allowResult) }

def plugBlock : Plugin :=
  { name := "c", version := "1", getRules? := none,
    getSafetyChecks? := some fun _ => Except.ok (some blockResult) }

def payloadBounded (p : LearningPayload) : Prop :=
  (∀ cs, p.commandsOv = some cs → cs ≠ []) ∧
  (∀ q, p.confidenceOv = some q → 0 ≤ q ∧ q ≤ 1)

def badRC : ResolvedCommand :=
  { commands := ["x"], explanation := "", tags := [], confidence := 2,
    source := "rule", vars := none }

def badEnv : ResolverEnv :=
  { emptyEnv with pluginRules := fun _ _ => some badRC }

def aiEnvNone : AIEnv :=
  { cachedResponse := fun _ _ _ => none, providerAvailable := false,
    aiResponse := fun _ _ _ => none, jsonParse := fun _ => none }

def env9 : ResolverEnv :=
  { pluginRules := fun _ _ => none, vaultSearch := fun _ => none,
    ai := AIService.generateCommand aiEnvNone }

def rcLsRule : ResolvedCommand :=
  { commands := ["ls -la"], explanation := "List files and directories",
    tags := ["filesystem"], confidence := 9/10, source := "rule", vars := none }

def wKey (i : Nat) : String := ⟨List.replicate i 'a'⟩

def bigStore : CacheStore :=
  (List.range cacheMaxEntries).map fun i =>
    (wKey i, { response := "r", timestamp := i, expiresAt := i + 100 })

/- ------------------------------------------------------------------ -/
/- Theorems                                                            -/
/- ------------------------------------------------------------------ -/

/-- C1: `CommandResolver.resolve` tries plugin rules, then vault search
(skipped entirely in suggest mode), then built-in rules (skipped when
the multi-step keyword heuristic fires), then the AI gateway, and
returns the first tier's non-null result; each conjunct fixes the later
tiers' oracles universally, so no later tier influences the result. -/
theorem resolve_tier_order :
    (∀ (env : ResolverEnv) (input : String) (os : OS) (lm sm : Bool)
        (r : ResolvedCommand),
      env.pluginRules (jsToLower (jsTrim input)) os = some r →
      CommandResolver.resolve env input os lm sm = some { r with source := "rule" }) ∧
    (∀ (env : ResolverEnv) (input : String) (os : OS) (lm : Bool)
        (r : ResolvedCommand),
      env.pluginRules (jsToLower (jsTrim input)) os = none →
      CommandResolver.searchVault env (jsToLower (jsTrim input)) = some r →
      CommandResolver.resolve env input os lm false = some { r with source := "vault" }) ∧
    (∀ (env : ResolverEnv) (input : String) (os : OS) (lm sm : Bool)
        (r : ResolvedCommand),
      env.pluginRules (jsToLower (jsTrim input)) os = none →
      (sm = true ∨ CommandResolver.searchVault env (jsToLower (jsTrim input)) = none) →
      wantsMultipleHeuristic (jsToLower (jsTrim input)) = false →
      CommandResolver.applyRules (jsToLower (jsTrim input)) os = some r →
      CommandResolver.resolve env input os lm sm = some { r with source := "rule" }) ∧
    (∀ (env : ResolverEnv) (input : String) (os : OS) (lm sm : Bool),
      env.pluginRules (jsToLower (jsTrim input)) os = none →
      (sm = true ∨ CommandResolver.searchVault env (jsToLower (jsTrim input)) = none) →
      (wantsMultipleHeuristic (jsToLower (jsTrim input)) = true ∨
        CommandResolver.applyRules (jsToLower (jsTrim input)) os = none) →
      CommandResolver.resolve env input os lm sm = env.ai (jsTrim input) os lm) := by
  refine ⟨?_, ?_, ?_, ?_⟩
  · intro env input os lm sm r h
    simp [CommandResolver.resolve, h]
  · intro env input os lm r h1 h2
    simp [CommandResolver.resolve, h1, h2]
  · intro env input os lm sm r h1 h2 h3 h4
    rcases h2 with rfl | h2
    · simp [CommandResolver.resolve, h1, h3, h4]
    · simp [CommandResolver.resolve, h1, h2, h3, h4]
  · intro env input os lm sm h1 h2 h3
    rcases h2 with rfl | h2
    · rcases h3 with h3 | h3 <;> simp [CommandResolver.resolve, h1, h3]
    · rcases h3 with h3 | h3 <;> simp [CommandResolver.resolve, h1, h2, h3]

/-- C1 witness: a plugin rule match is returned with `source` set to
`rule`, with the vault and AI oracles left empty. -/
theorem resolve_tier_order_witness :
    CommandResolver.resolve pluginEnv "echo" osLinux false false =
      some { sampleRC with source := "rule" } :=
  resolve_tier_order.1 pluginEnv "echo" osLinux false false sampleRC rfl

/-- C6: a best-ranked vault result with confidence strictly below 0.6
makes the vault tier report no match, and resolution proceeds exactly
as if the vault had returned nothing. -/
theorem vault_low_confidence_no_match :
    ∀ (env : ResolverEnv) (input : String) (os : OS) (lm sm : Bool)
      (e : CommandEntry) (rest : List CommandEntry),
      env.vaultSearch (jsToLower (jsTrim input)) = some (e :: rest) →
      e.confidence < 6/10 →
      CommandResolver.searchVault env (jsToLower (jsTrim input)) = none ∧
      CommandResolver.resolve env input os lm sm =
        CommandResolver.resolve { env with vaultSearch := fun _ => none } input os lm sm := by
  intro env input os lm sm e rest h1 h2
  have hsv : CommandResolver.searchVault env (jsToLower (jsTrim input)) = none := by
    simp [CommandResolver.searchVault, h1, h2]
  refine ⟨hsv, ?_⟩
  have hsv2 : CommandResolver.searchVault { env with vaultSearch := fun _ => none }
      (jsToLower (jsTrim input)) = none := by
    simp [CommandResolver.searchVault]
  simp [CommandResolver.resolve, hsv, hsv2]

/-- C6 witness: a vault entry with confidence 0.5 is skipped. -/
theorem vault_low_confidence_no_match_witness :
    CommandResolver.searchVault vaultHalfEnv (jsToLower (jsTrim "list it")) = none :=
  (vault_low_confidence_no_match vaultHalfEnv "list it" osLinux false false
    vaultHalfEntry [] rfl (by norm_num [vaultHalfEntry])).1

/-- C10: inputs equal after trimming and lowercasing drive the plugin,
vault and built-in tiers identically, hence resolve identically whenever
one of those tiers matches; the AI tier alone receives the trimmed,
case-preserved input. -/
theorem resolve_normalized_input :
    (∀ (env : ResolverEnv) (i1 i2 : String) (os : OS) (sm : Bool),
      jsToLower (jsTrim i1) = jsToLower (jsTrim i2) →
      resolvePreTiers env (jsToLower (jsTrim i1)) os sm =
        resolvePreTiers env (jsToLower (jsTrim i2)) os sm) ∧
    (∀ (env : ResolverEnv) (i1 i2 : String) (os : OS) (lm sm : Bool),
      jsToLower (jsTrim i1) = jsToLower (jsTrim i2) →
      (resolvePreTiers env (jsToLower (jsTrim i1)) os sm).isSome = true →
      CommandResolver.resolve env i1 os lm sm = CommandResolver.resolve env i2 os lm sm) ∧
    (∀ (env : ResolverEnv) (i : String) (os : OS) (lm sm : Bool),
      CommandResolver.resolve env i os lm sm =
        match resolvePreTiers env (jsToLower (jsTrim i)) os sm with
        | some r => some r
        | none => env.ai (jsTrim i) os lm) := by
  have hmain : ∀ (env : ResolverEnv) (i : String) (os : OS) (lm sm : Bool),
      CommandResolver.resolve env i os lm sm =
        match resolvePreTiers env (jsToLower (jsTrim i)) os sm with
        | some r => some r
        | none => env.ai (jsTrim i) os lm := by
    intro env i os lm sm
    simp only [CommandResolver.resolve, resolvePreTiers]
    generalize env.pluginRules (jsToLower (jsTrim i)) os = po
    cases po with
    | some r => rfl
    | none =>
      generalize (if !sm then CommandResolver.searchVault env (jsToLower (jsTrim i))
        else none) = vo
      cases vo with
      | some r => rfl
      | none =>
        generalize (if !wantsMultipleHeuristic (jsToLower (jsTrim i)) then
          CommandResolver.applyRules (jsToLower (jsTrim i)) os else none) = ro
        cases ro with
        | some r => rfl
        | none => rfl
  refine ⟨?_, ?_, hmain⟩
  · intro env i1 i2 os sm h
    rw [h]
  · intro env i1 i2 os lm sm h hsome
    rw [hmain, hmain, h]
    rw [h] at hsome
    rcases Option.isSome_iff_exists.mp hsome with ⟨r, hr⟩
    rw [hr]

/-- C10 witness: `"LIST FILES"` and `"  list files "` resolve to the
same built-in rule result. -/
theorem resolve_normalized_input_witness :
    CommandResolver.resolve emptyEnv "LIST FILES" osLinux false false =
      CommandResolver.resolve emptyEnv "  list files " osLinux false false :=
  resolve_normalized_input.2.1 emptyEnv "LIST FILES" "  list files " osLinux false false
    (by decide) (by decide)

/-- Plugins that all miss contribute nothing to the safety dispatch. -/
theorem getSafetyChecks_miss_append (pre rest : List Plugin) (rc : ResolvedCommand)
    (h : ∀ q ∈ pre, pluginSafetyMiss q rc) :
    PluginManager.getSafetyChecks (pre ++ rest) rc =
      PluginManager.getSafetyChecks rest rc := by
  induction pre with
  | nil => rfl
  | cons q pre ih =>
    have hq := h q (by simp)
    have hrest : ∀ x ∈ pre, pluginSafetyMiss x rc := fun x hx => h x (by simp [hx])
    unfold pluginSafetyMiss at hq
    cases hqq : q.getSafetyChecks? with
    | none =>
      simp only [List.cons_append, PluginManager.getSafetyChecks, hqq]
      exact ih hrest
    | some f =>
      rw [hqq] at hq
      rcases hq with herr | hok
      · simp only [List.cons_append, PluginManager.getSafetyChecks, hqq, herr]
        exact ih hrest
      · simp only [List.cons_append, PluginManager.getSafetyChecks, hqq, hok]
        exact ih hrest

/-- C3: `SafetyValidator.validate` consults plugin safety checks before
any built-in tier — a non-null plugin dispatch result is returned
verbatim for every command sequence — and the first plugin returning a
non-null result decides, whatever the remaining plugins would say. -/
theorem validate_plugin_first :
    (∀ (plugins : List Plugin) (rc : ResolvedCommand) (r : SafetyResult),
      PluginManager.getSafetyChecks plugins rc = some r →
      SafetyValidator.validate plugins rc = r) ∧
    (∀ (pre : List Plugin) (p : Plugin) (rest : List Plugin) (rc : ResolvedCommand)
        (f : ResolvedCommand → Except Unit (Option SafetyResult)) (r : SafetyResult),
      (∀ q ∈ pre, pluginSafetyMiss q rc) →
      p.getSafetyChecks? = some f →
      f rc = .ok (some r) →
      SafetyValidator.validate (pre ++ p :: rest) rc = r) := by
  constructor
  · intro plugins rc r h
    simp [SafetyValidator.validate, h]
  · intro pre p rest rc f r hpre hp hf
    have h1 : PluginManager.getSafetyChecks (pre ++ p :: rest) rc = some r := by
      rw [getSafetyChecks_miss_append pre (p :: rest) rc hpre]
      simp [PluginManager.getSafetyChecks, hp, hf]
    simp [SafetyValidator.validate, h1]

/-- C3 witness: with a hook-less plugin first, the second plugin's
permissive verdict overrides both the built-in block for `rm -rf /` and
the third plugin's blocking verdict. -/
theorem validate_plugin_first_witness :
    SafetyValidator.validate [plugNoHook, plugAllow, plugBlock] rcRoot = allowResult :=
  validate_plugin_first.2 [plugNoHook] plugAllow [plugBlock] rcRoot
    (fun _ => Except.ok (some allowResult)) allowResult
    (by
      intro q hq
      simp only [List.mem_singleton] at hq
      subst hq
      simp [pluginSafetyMiss, plugNoHook])
    rfl rfl

/-- The per-command loop blocks when the first pattern-matching command
matches a dangerous pattern. -/
theorem validateCommandList_first_dangerous (pre : List String) (c : String)
    (rest : List String)
    (hpre : ∀ x ∈ pre, matchesDangerous x = false ∧ matchesWarning x = false)
    (hc : matchesDangerous c = true) :
    validateCommandList (pre ++ c :: rest) =
      some
        { blocked := true, warning := none,
          reason := some (SafetyValidator.getBlockReason (cmdNorm c)),
          riskLevel := "high" } := by
  induction pre with
  | nil =>
    simp only [List.nil_append]
    unfold validateCommandList
    simp only [matchesDangerous] at hc
    simp [hc]
  | cons x pre ih =>
    have hx := hpre x (by simp)
    have hrest : ∀ y ∈ pre, matchesDangerous y = false ∧ matchesWarning y = false :=
      fun y hy => hpre y (by simp [hy])
    simp only [matchesDangerous, matchesWarning] at hx
    simp only [List.cons_append]
    unfold validateCommandList
    simp [hx.1, hx.2]
    exact ih hrest

/-- C2 (counterexample): the sequence `["rm -rf x", "rm -rf /"]`
contains a dangerous-pattern match (`rm -rf /`), yet `validate` returns
`blocked = false`, because the warning tier already fires on the first
command before the dangerous second command is examined. -/
theorem validate_dangerous_anywhere_cex :
    matchesDangerous "rm -rf /" = true ∧
    (SafetyValidator.validate [] rcMixed).blocked = false := by
  constructor
  · decide
  · decide

/-- C2 (amended): when no plugin safety check fires and the first
command that matches any built-in pattern matches a dangerous one,
`validate` returns `blocked = true` with `riskLevel = "high"`. -/
theorem validate_first_pattern_dangerous_blocks :
    ∀ (plugins : List Plugin) (rc : ResolvedCommand) (pre : List String)
      (c : String) (rest : List String),
      PluginManager.getSafetyChecks plugins rc = none →
      rc.commands = pre ++ c :: rest →
      (∀ x ∈ pre, matchesDangerous x = false ∧ matchesWarning x = false) →
      matchesDangerous c = true →
      (SafetyValidator.validate plugins rc).blocked = true ∧
      (SafetyValidator.validate plugins rc).riskLevel = "high" := by
  intro plugins rc pre c rest hplug hcmds hpre hc
  have h := validateCommandList_first_dangerous pre c rest hpre hc
  simp [SafetyValidator.validate, hplug, hcmds, h]

/-- C2 witness: the single command `rm -rf /` is blocked at high
risk. -/
theorem validate_first_pattern_dangerous_blocks_witness :
    (SafetyValidator.validate [] rcRoot).blocked = true ∧
    (SafetyValidator.validate [] rcRoot).riskLevel = "high" :=
  validate_first_pattern_dangerous_blocks [] rcRoot [] "rm -rf /" [] rfl rfl
    (by simp) (by decide)

/-- C4 (counterexample): the cleaned text `echo ready` contains the
conversational marker `ready`, yet the parser accepts it — the live
parser has no placeholder/conversational-marker rejections. -/
theorem parse_reject_set_cex :
    strIncludes (jsToLower (cleanedOf "echo ready" false)) "ready" = true ∧
    AIService.parseAIResponse (fun _ => none) "echo ready" false false ≠ none := by
  constructor
  · decide
  · decide

/-- C4 (amended): the parser returns null exactly when the cleaned
first line is empty, exceeds 180 characters, or ends with a question
mark — or when the chaining requirement (multi-step requested, no
separator) fails; there are no other rejections. -/
theorem parse_null_iff :
    ∀ (jp : String → Option LearningPayload) (resp : String) (wm lm : Bool),
      AIService.parseAIResponse jp resp wm lm = none ↔
        (cleanedOf resp lm = "" ∨ 180 < (cleanedOf resp lm).length ∨
         jsEndsWith (cleanedOf resp lm) "?" = true ∨
         (wm = true ∧ hasSepWsChars (cleanedOf resp lm).data = false)) := by
  intro jp resp wm lm
  have hmain : AIService.parseAIResponse jp resp wm lm = none ↔
      ((decide (cleanedOf resp lm = "") || decide (180 < (cleanedOf resp lm).length) ||
        jsEndsWith (cleanedOf resp lm) "?") = true ∨
       (wm && !hasSepWsChars (cleanedOf resp lm).data) = true) := by
    simp only [AIService.parseAIResponse]
    split_ifs with h1 h2
    · simp [h1]
    · simp [h1, h2]
    · simp [h1, h2]
  rw [hmain]
  simp only [Bool.or_eq_true, decide_eq_true_eq, Bool.and_eq_true, Bool.not_eq_true']
  rw [or_assoc, or_assoc]

/-- C4 witness: a cleaned line ending in a question mark is rejected. -/
theorem parse_null_iff_witness :
    AIService.parseAIResponse (fun _ => none) "which folder?" false false = none :=
  (parse_null_iff (fun _ => none) "which folder?" false false).mpr
    (Or.inr (Or.inr (Or.inl (by decide))))

/-- C5 (counterexample): `a&&b` contains the separator `&&`, but with
`wantsMultiple = true` the parser rejects it — separator detection
requires whitespace around the token. -/
theorem parse_sep_requires_ws_cex :
    strIncludes (cleanedOf "a&&b" false) "&&" = true ∧
    AIService.parseAIResponse (fun _ => none) "a&&b" true false = none := by
  constructor
  · decide
  · decide

/-- C5 (amended): for the non-learning parse, a separator is a
whitespace-surrounded `&&` or `;` (`|` is not one); when a separator is
detected the commands are the split of the cleaned text on every
`&&`/`;` token with the tokens and surrounding whitespace discarded,
otherwise the single cleaned line. -/
theorem parse_commands_split :
    ∀ (jp : String → Option LearningPayload) (resp : String) (wm : Bool)
      (rc : ResolvedCommand),
      AIService.parseAIResponse jp resp wm false = some rc →
      rc.commands =
        (if hasSepWsChars (cleanedOf resp false).data then splitSeps (cleanedOf resp false)
         else [cleanedOf resp false]) := by
  intro jp resp wm rc h
  have hlp : learningPartOf resp false = none := by simp [learningPartOf]
  simp only [AIService.parseAIResponse, hlp] at h
  split_ifs at h
  all_goals cases h
  all_goals simp [*]

/-- C5 witness: the spec scenario — `git add . && git commit -m {msg}`
with `wantsMultiple = true` parses into the two chained commands. -/
theorem parse_commands_split_witness :
    ∃ rc, AIService.parseAIResponse (fun _ => none)
        "git add . && git commit -m {msg}" true false = some rc ∧
      rc.commands = ["git add .", "git commit -m {msg}"] := by
  refine ⟨{ commands := ["git add .", "git commit -m {msg}"],
            explanation := "Command suggested by AI", tags := ["ai"],
            confidence := 7/10, source := "ai",
            vars := some [("msg", "")] }, rfl, ?_⟩
  have h := parse_commands_split (fun _ => none) "git add . && git commit -m {msg}" true
    { commands := ["git add .", "git commit -m {msg}"],
      explanation := "Command suggested by AI", tags := ["ai"],
      confidence := 7/10, source := "ai",
      vars := some [("msg", "")] } rfl
  exact h.trans (by decide)

/-- Helper: the separator split never produces an empty list. -/
theorem splitSepsAux_ne_nil : ∀ (fuel : Nat) (acc l : List Char),
    splitSepsAux fuel acc l ≠ [] := by
  intro fuel
  induction fuel with
  | zero => intro acc l; simp [splitSepsAux]
  | succ fuel ih =>
    intro acc l
    cases hsep : sepTokenLen l with
    | some n => simp [splitSepsAux, hsep]
    | none =>
      cases l with
      | nil => simp [splitSepsAux, hsep]
      | cons c t =>
        simp only [splitSepsAux, hsep]
        exact ih (c :: acc) t

theorem splitSeps_ne_nil (s : String) : splitSeps s ≠ [] := by
  simp [splitSeps, splitSepsAux_ne_nil]

/-- Helper: spreading a bounded learning payload preserves the command
count and confidence bounds. -/
theorem applyPayload_bounds (rc : ResolvedCommand) (p : LearningPayload)
    (hrc : 1 ≤ rc.commands.length ∧ 0 ≤ rc.confidence ∧ rc.confidence ≤ 1)
    (hp : payloadBounded p) :
    1 ≤ (applyPayload rc p).commands.length ∧ 0 ≤ (applyPayload rc p).confidence ∧
      (applyPayload rc p).confidence ≤ 1 := by
  obtain ⟨h1, h2, h3⟩ := hrc
  obtain ⟨hcs, hcf⟩ := hp
  refine ⟨?_, ?_, ?_⟩
  · cases hc : p.commandsOv with
    | none => simpa [applyPayload, hc] using h1
    | some cs =>
      have hne := hcs cs hc
      simp only [applyPayload, hc, Option.getD_some]
      exact List.length_pos.mpr hne
  · cases hq : p.confidenceOv with
    | none => simpa [applyPayload, hq] using h2
    | some q => simpa [applyPayload, hq] using (hcf q hq).1
  · cases hq : p.confidenceOv with
    | none => simpa [applyPayload, hq] using h3
    | some q => simpa [applyPayload, hq] using (hcf q hq).2

/-- Helper: every built-in rule result has a non-empty command list and
confidence within `[0,1]`. -/
theorem applyRules_bounds (input : String) (os : OS) (r : ResolvedCommand)
    (h : CommandResolver.applyRules input os = some r) :
    1 ≤ r.commands.length ∧ 0 ≤ r.confidence ∧ r.confidence ≤ 1 := by
  unfold CommandResolver.applyRules at h
  split_ifs at h <;> cases h <;> exact ⟨by simp, by norm_num, by norm_num⟩

/-- Helper: a successful parse yields a non-empty command list, and
confidence `0.7` unless a bounded learning payload overrides it. -/
theorem parseAIResponse_bounds (jp : String → Option LearningPayload)
    (hjp : ∀ s p, jp s = some p → payloadBounded p)
    (resp : String) (wm lm : Bool) (rc : ResolvedCommand)
    (h : AIService.parseAIResponse jp resp wm lm = some rc) :
    1 ≤ rc.commands.length ∧ 0 ≤ rc.confidence ∧ rc.confidence ≤ 1 := by
  cases hl : learningPartOf resp lm with
  | none =>
    simp only [AIService.parseAIResponse, hl] at h
    split_ifs at h
    all_goals cases h
    all_goals refine ⟨?_, by norm_num, by norm_num⟩
    all_goals
      first
        | exact List.length_pos.mpr (splitSeps_ne_nil (cleanedOf resp lm))
        | simp
  | some lp =>
    simp only [AIService.parseAIResponse, hl] at h
    split_ifs at h
    all_goals cases h
    all_goals
      first
        | (refine ⟨?_, by norm_num, by norm_num⟩
           ; first
             | exact List.length_pos.mpr (splitSeps_ne_nil (cleanedOf resp lm))
             | simp)
        | (cases hjpl : jp lp with
           | none =>
             simp only [hjpl]
             refine ⟨?_, by norm_num, by norm_num⟩
             first
               | exact List.length_pos.mpr (splitSeps_ne_nil (cleanedOf resp lm))
               | simp
           | some p =>
             simp only [hjpl]
             refine applyPayload_bounds _ _ ⟨?_, by norm_num, by norm_num⟩ (hjp lp p hjpl)
             first
               | exact List.length_pos.mpr (splitSeps_ne_nil (cleanedOf resp lm))
               | simp)

/-- Helper: the AI gateway inherits the parser's bounds. -/
theorem generateCommand_bounds (aienv : AIEnv)
    (hjp : ∀ s p, aienv.jsonParse s = some p → payloadBounded p)
    (input : String) (os : OS) (lm : Bool) (rc : ResolvedCommand)
    (h : AIService.generateCommand aienv input os lm = some rc) :
    1 ≤ rc.commands.length ∧ 0 ≤ rc.confidence ∧ rc.confidence ≤ 1 := by
  simp only [AIService.generateCommand] at h
  cases hc : aienv.cachedResponse input os lm with
  | some cached =>
    simp only [hc] at h
    exact parseAIResponse_bounds _ hjp _ _ _ _ h
  | none =>
    simp only [hc] at h
    cases hpv : aienv.providerAvailable with
    | false => simp [hpv] at h
    | true =>
      simp only [hpv, Bool.not_true] at h
      cases har : aienv.aiResponse input os lm with
      | none => simp [har] at h
      | some resp2 =>
        simp only [har] at h
        exact parseAIResponse_bounds _ hjp _ _ _ _ h

/-- Helper: a vault hit has confidence in `[0.6, 1]` (upper bound from
the entry hypothesis) and a non-empty command list. -/
theorem searchVault_bounds (env : ResolverEnv)
    (hvs : ∀ i e rest, env.vaultSearch i = some (e :: rest) →
      1 ≤ e.commands.length ∧ e.confidence ≤ 1)
    (i : String) (r : ResolvedCommand)
    (h : CommandResolver.searchVault env i = some r) :
    1 ≤ r.commands.length ∧ 0 ≤ r.confidence ∧ r.confidence ≤ 1 := by
  unfold CommandResolver.searchVault at h
  cases he : env.vaultSearch i with
  | none => simp [he] at h
  | some l =>
    cases l with
    | nil => simp [he] at h
    | cons best rest =>
      simp only [he] at h
      split_ifs at h with hc
      have hb := hvs i best rest he
      have h06 : (6:ℚ)/10 ≤ best.confidence := not_lt.mp hc
      cases h
      exact ⟨hb.1, by linarith, hb.2⟩

/-- C9 (amended): every successful `resolve` result has at least one
command and confidence in `[0,1]`, provided plugin rule results and
vault entries themselves satisfy those bounds and any learning-mode
JSON payload only overrides `commands`/`confidence` within them;
built-in rules and unoverridden AI parses satisfy the bounds
unconditionally. -/
theorem resolve_result_bounds :
    ∀ (env : ResolverEnv) (aienv : AIEnv) (input : String) (os : OS)
      (lm sm : Bool) (rc : ResolvedCommand),
      env.ai = AIService.generateCommand aienv →
      (∀ i o r, env.pluginRules i o = some r →
        1 ≤ r.commands.length ∧ 0 ≤ r.confidence ∧ r.confidence ≤ 1) →
      (∀ i e rest, env.vaultSearch i = some (e :: rest) →
        1 ≤ e.commands.length ∧ e.confidence ≤ 1) →
      (∀ s p, aienv.jsonParse s = some p → payloadBounded p) →
      CommandResolver.resolve env input os lm sm = some rc →
      1 ≤ rc.commands.length ∧ 0 ≤ rc.confidence ∧ rc.confidence ≤ 1 := by
  intro env aienv input os lm sm rc hai hpr hvs hjp h
  simp only [CommandResolver.resolve] at h
  cases hp : env.pluginRules (jsToLower (jsTrim input)) os with
  | some r =>
    simp only [hp] at h
    cases h
    have hb := hpr _ _ r hp
    exact ⟨hb.1, hb.2.1, hb.2.2⟩
  | none =>
    simp only [hp] at h
    cases hv : (if !sm then
        CommandResolver.searchVault env (jsToLower (jsTrim input)) else none) with
    | some v =>
      simp only [hv] at h
      cases h
      have hv2 : CommandResolver.searchVault env (jsToLower (jsTrim input)) = some v := by
        cases sm <;> simp_all
      have hb := searchVault_bounds env hvs _ v hv2
      exact ⟨hb.1, hb.2.1, hb.2.2⟩
    | none =>
      simp only [hv] at h
      cases hr : (if !wantsMultipleHeuristic (jsToLower (jsTrim input)) then
          CommandResolver.applyRules (jsToLower (jsTrim input)) os else none) with
      | some r =>
        simp only [hr] at h
        cases h
        have hr2 : CommandResolver.applyRules (jsToLower (jsTrim input)) os = some r := by
          cases hwm : wantsMultipleHeuristic (jsToLower (jsTrim input)) <;> simp_all
        have hb := applyRules_bounds _ os r hr2
        exact ⟨hb.1, hb.2.1, hb.2.2⟩
      | none =>
        simp only [hr] at h
        rw [hai] at h
        exact generateCommand_bounds aienv hjp _ _ _ _ h

/-- C9 (counterexample): a plugin rule returning confidence 2 flows
through `resolve` unchecked, violating `confidence ≤ 1`. -/
theorem resolve_bounds_cex :
    (CommandResolver.resolve badEnv "x" osLinux false false).map ResolvedCommand.confidence
      = some 2 ∧ ¬ ((2 : ℚ) ≤ 1) := by
  constructor
  · rfl
  · norm_num

/-- C9 witness: the built-in `ls` rule result through the full pipeline
satisfies the bounds. -/
theorem resolve_result_bounds_witness :
    1 ≤ rcLsRule.commands.length ∧ 0 ≤ rcLsRule.confidence ∧ rcLsRule.confidence ≤ 1 :=
  resolve_result_bounds env9 aiEnvNone "ls" osLinux false false rcLsRule rfl
    (fun _ _ _ hr => by cases hr)
    (fun _ _ _ hr => by cases hr)
    (fun _ _ hp => by cases hp)
    (by rfl)

/-- Helper: writing a key makes it immediately readable. -/
theorem lookup_upsert (s : CacheStore) (k : String) (e : CacheEntry) :
    lookupKey (upsert s k e) k = some e := by
  induction s with
  | nil => simp [upsert, lookupKey]
  | cons p t ih =>
    by_cases hp : p.1 = k
    · simp [upsert, lookupKey, hp]
    · simp [upsert, lookupKey, hp, ih]

theorem upsert_append (s : CacheStore) (k : String) (e : CacheEntry)
    (h : k ∉ s.map Prod.fst) : upsert s k e = s ++ [(k, e)] := by
  induction s with
  | nil => rfl
  | cons p t ih =>
    simp only [List.map_cons, List.mem_cons] at h
    push_neg at h
    simp [upsert, Ne.symm h.1, ih h.2]

theorem upsert_length_mem (s : CacheStore) (k : String) (e : CacheEntry)
    (h : k ∈ s.map Prod.fst) : (upsert s k e).length = s.length := by
  induction s with
  | nil => simp at h
  | cons p t ih =>
    by_cases hp : p.1 = k
    · simp [upsert, hp]
    · simp only [List.map_cons, List.mem_cons] at h
      rcases h with h | h
      · exact absurd h.symm hp
      · simp [upsert, hp, ih h]

theorem evict_of_le (s : CacheStore) (h : s.length ≤ cacheMaxEntries) :
    CacheManager.evictOldEntries s = s := by
  simp [CacheManager.evictOldEntries, h]

theorem lookup_append_right (s : CacheStore) (k : String) (e : CacheEntry)
    (h : k ∉ s.map Prod.fst) : lookupKey (s ++ [(k, e)]) k = some e := by
  induction s with
  | nil => simp [lookupKey]
  | cons p t ih =>
    simp only [List.map_cons, List.mem_cons] at h
    push_neg at h
    simp [lookupKey, Ne.symm h.1, ih h.2]

theorem insertByTs_mem (x a : String × CacheEntry) (l : CacheStore) :
    a ∈ insertByTs x l ↔ a = x ∨ a ∈ l := by
  induction l with
  | nil => simp [insertByTs]
  | cons y t ih =>
    by_cases hts : x.2.timestamp ≤ y.2.timestamp
    · simp [insertByTs, hts]
    · simp [insertByTs, hts, ih]
      tauto

theorem insertByTs_length (x : String × CacheEntry) (l : CacheStore) :
    (insertByTs x l).length = l.length + 1 := by
  induction l with
  | nil => simp [insertByTs]
  | cons y t ih =>
    by_cases hts : x.2.timestamp ≤ y.2.timestamp
    · simp [insertByTs, hts]
    · simp [insertByTs, hts, ih]

theorem sortByTs_mem (a : String × CacheEntry) (s : CacheStore) :
    a ∈ sortByTs s ↔ a ∈ s := by
  induction s with
  | nil => simp [sortByTs]
  | cons x t ih => simp [sortByTs, insertByTs_mem, ih]

theorem sortByTs_length (s : CacheStore) : (sortByTs s).length = s.length := by
  induction s with
  | nil => rfl
  | cons x t ih => simp [sortByTs, insertByTs_length, ih]

theorem sortByTs_head_min :
    ∀ (s : CacheStore) (hd : String × CacheEntry) (t : CacheStore),
      sortByTs s = hd :: t → ∀ y ∈ s, hd.2.timestamp ≤ y.2.timestamp := by
  intro s
  induction s with
  | nil => intro hd t h; cases h
  | cons x s2 ih =>
    intro hd t h y hy
    rw [show sortByTs (x :: s2) = insertByTs x (sortByTs s2) from rfl] at h
    cases hs : sortByTs s2 with
    | nil =>
      have hs2 : s2 = [] :=
        List.length_eq_zero.mp (by simpa [hs] using (sortByTs_length s2).symm)
      subst hs2
      rw [hs] at h
      simp only [insertByTs] at h
      cases h
      simp only [List.mem_cons, List.not_mem_nil, or_false] at hy
      subst hy
      exact le_refl _
    | cons hd2 t2 =>
      rw [hs] at h
      simp only [insertByTs] at h
      split_ifs at h with hts
      · have hmin := ih hd2 t2 hs
        cases h
        rcases List.mem_cons.mp hy with rfl | hy2
        · exact le_refl _
        · exact le_trans hts (hmin y hy2)
      · have hmin := ih hd2 t2 hs
        cases h
        rcases List.mem_cons.mp hy with rfl | hy2
        · exact le_of_lt (not_le.mp hts)
        · exact hmin y hy2

theorem sortByTs_append_single_head :
    ∀ (s : CacheStore) (x hd : String × CacheEntry) (t : CacheStore),
      (∀ y ∈ s, y.2.timestamp ≤ x.2.timestamp) →
      (∀ y ∈ s, y ≠ x) →
      s ≠ [] →
      sortByTs (s ++ [x]) = hd :: t → hd ≠ x := by
  intro s
  induction s with
  | nil => intro x hd t _ _ hne; exact absurd rfl hne
  | cons y s2 ih =>
    intro x hd t hts hne _ h
    rw [show sortByTs ((y :: s2) ++ [x]) = insertByTs y (sortByTs (s2 ++ [x])) from rfl] at h
    cases s2 with
    | nil =>
      simp only [List.nil_append, sortByTs, insertByTs] at h
      split_ifs at h with hc
      · cases h
        exact hne y (by simp)
      · exact absurd (hts y (by simp)) hc
    | cons z s3 =>
      cases hs : sortByTs ((z :: s3) ++ [x]) with
      | nil =>
        have := sortByTs_length ((z :: s3) ++ [x])
        rw [hs] at this
        simp at this
      | cons hd2 t2 =>
        have hd2ne : hd2 ≠ x := ih x hd2 t2
          (fun w hw => hts w (List.mem_cons_of_mem y hw))
          (fun w hw => hne w (List.mem_cons_of_mem y hw))
          (by simp) hs
        rw [hs] at h
        simp only [insertByTs] at h
        split_ifs at h with hc
        · cases h
          exact hne y (by simp)
        · cases h
          exact hd2ne

theorem removeKeys_single_eq (s : CacheStore) (k0 : String) :
    removeKeys s [k0] = s.filter fun p => decide (p.1 ≠ k0) := by
  unfold removeKeys
  apply List.filter_congr
  intro p _
  simp [List.contains]

theorem filter_ne_key_all (s : CacheStore) (k : String)
    (h : k ∉ s.map Prod.fst) :
    (s.filter fun p => decide (p.1 ≠ k)) = s := by
  induction s with
  | nil => rfl
  | cons p t ih =>
    simp only [List.map_cons, List.mem_cons] at h
    push_neg at h
    rw [List.filter_cons, if_pos (decide_eq_true (Ne.symm h.1)), ih h.2]

theorem filter_ne_key_length (s : CacheStore) (k : String) (e : CacheEntry)
    (hnd : keysNodup s) (hmem : (k, e) ∈ s) :
    (s.filter fun p => decide (p.1 ≠ k)).length + 1 = s.length := by
  induction s with
  | nil => simp at hmem
  | cons p t ih =>
    simp only [keysNodup, List.map_cons, List.nodup_cons] at hnd
    rcases List.mem_cons.mp hmem with rfl | hmem2
    · rw [List.filter_cons, if_neg (by simp), filter_ne_key_all t k hnd.1]
      simp
    · have hpk : p.1 ≠ k := by
        intro hpk
        exact hnd.1 (hpk ▸ List.mem_map_of_mem Prod.fst hmem2)
      rw [List.filter_cons, if_pos (decide_eq_true hpk)]
      simp only [List.length_cons]
      rw [← ih hnd.2 hmem2]

theorem lookup_filter_ne (s : CacheStore) (k k0 : String) (h : k ≠ k0) :
    lookupKey (s.filter fun p => decide (p.1 ≠ k0)) k = lookupKey s k := by
  induction s with
  | nil => rfl
  | cons p t ih =>
    by_cases hp : p.1 = k
    · rw [List.filter_cons, if_pos (decide_eq_true (hp ▸ h))]
      simp [lookupKey, hp, ih]
    · by_cases hp0 : p.1 = k0
      · rw [List.filter_cons, if_neg (by simp [hp0])]
        rw [ih]
        simp [lookupKey, hp]
      · rw [List.filter_cons, if_pos (decide_eq_true hp0)]
        simp only [lookupKey, if_neg hp]
        exact ih

theorem keysNodup_append_new (s : CacheStore) (k : String) (e : CacheEntry)
    (hnd : keysNodup s) (hk : k ∉ s.map Prod.fst) :
    keysNodup (s ++ [(k, e)]) := by
  unfold keysNodup at *
  rw [List.map_append]
  simp only [List.map_cons, List.map_nil]
  refine List.Nodup.append hnd (by simp) ?_
  intro a ha
  simp only [List.mem_singleton]
  intro hak
  exact hk (hak ▸ ha)

theorem evict_full_step (store : CacheStore) (k : String) (e : CacheEntry)
    (hnd : keysNodup store) (hlen : store.length = cacheMaxEntries)
    (hk : k ∉ store.map Prod.fst) :
    ∃ hd t, sortByTs (store ++ [(k, e)]) = hd :: t ∧
      CacheManager.evictOldEntries (store ++ [(k, e)]) =
        (store ++ [(k, e)]).filter (fun p => decide (p.1 ≠ hd.1)) ∧
      hd ∈ store ++ [(k, e)] ∧
      (∀ y ∈ store ++ [(k, e)], hd.2.timestamp ≤ y.2.timestamp) ∧
      (CacheManager.evictOldEntries (store ++ [(k, e)])).length = cacheMaxEntries := by
  have hflen : (store ++ [(k, e)]).length = cacheMaxEntries + 1 := by simp [hlen]
  cases hs : sortByTs (store ++ [(k, e)]) with
  | nil =>
    have hl := sortByTs_length (store ++ [(k, e)])
    rw [hs, hflen] at hl
    simp at hl
  | cons hd t =>
    have hno : ¬ (store ++ [(k, e)]).length ≤ cacheMaxEntries := by rw [hflen]; omega
    have hone : (store ++ [(k, e)]).length - cacheMaxEntries = 1 := by rw [hflen]; omega
    have hev : CacheManager.evictOldEntries (store ++ [(k, e)]) =
        (store ++ [(k, e)]).filter (fun p => decide (p.1 ≠ hd.1)) := by
      unfold CacheManager.evictOldEntries
      rw [if_neg hno, hone, hs]
      simp only [List.take_succ_cons, List.take_zero, List.map_cons, List.map_nil]
      exact removeKeys_single_eq (store ++ [(k, e)]) hd.1
    have hmemhd : hd ∈ store ++ [(k, e)] :=
      (sortByTs_mem hd (store ++ [(k, e)])).mp (hs ▸ List.mem_cons_self hd t)
    have hndfull : keysNodup (store ++ [(k, e)]) := keysNodup_append_new store k e hnd hk
    have hlen2 : (CacheManager.evictOldEntries (store ++ [(k, e)])).length
        = cacheMaxEntries := by
      rw [hev]
      have hpair : (hd.1, hd.2) ∈ store ++ [(k, e)] := by simpa using hmemhd
      have := filter_ne_key_length (store ++ [(k, e)]) hd.1 hd.2 hndfull hpair
      omega
    exact ⟨hd, t, rfl, hev, hmemhd, sortByTs_head_min _ hd t hs, hlen2⟩

/-- C7: `set` followed immediately by `get` with the same
(input, OS, learningMode) tuple returns exactly the stored response
(store well-formed, timestamps monotone, TTL not elapsed, no
intervening writes), and the derived cache key is a deterministic
function of the tuple. -/
theorem cache_roundtrip :
    ∀ (hash : String → String) (dur : Nat) (store : CacheStore) (input : String)
      (os : OS) (lm : Bool) (v : String) (now now2 : Nat),
      keysNodup store → store.length ≤ cacheMaxEntries →
      (∀ p ∈ store, (p.2).timestamp ≤ now) → now2 ≤ now + dur →
      (CacheManager.get hash (CacheManager.set hash dur store input os lm v now)
          input os lm now2).1 = some v ∧
      CacheManager.getCacheKey hash input os lm =
        CacheManager.getCacheKey hash input os lm := by
  intro hash dur store input os lm v now now2 hnd hlen hts httl
  refine ⟨?_, rfl⟩
  have hlook : lookupKey (CacheManager.set hash dur store input os lm v now)
      (CacheManager.getCacheKey hash input os lm) =
      some { response := v, timestamp := now, expiresAt := now + dur } := by
    unfold CacheManager.set
    by_cases hmem : CacheManager.getCacheKey hash input os lm ∈ store.map Prod.fst
    · rw [evict_of_le _ (by rw [upsert_length_mem store _ _ hmem]; exact hlen)]
      exact lookup_upsert store _ _
    · rw [upsert_append store _ _ hmem]
      by_cases hlt : store.length + 1 ≤ cacheMaxEntries
      · rw [evict_of_le _ (by simpa using hlt)]
        exact lookup_append_right store _ _ hmem
      · have hlen500 : store.length = cacheMaxEntries := by omega
        obtain ⟨hd, t, hs, hev, hmemhd, hmin, _⟩ :=
          evict_full_step store (CacheManager.getCacheKey hash input os lm)
            { response := v, timestamp := now, expiresAt := now + dur } hnd hlen500 hmem
        rw [hev]
        have hstore_ne : store ≠ [] := by
          intro h0
          rw [h0] at hlen500
          simp [cacheMaxEntries] at hlen500
        have hhdne : hd.1 ≠ CacheManager.getCacheKey hash input os lm := by
          intro hbad
          have hdx : hd = (CacheManager.getCacheKey hash input os lm,
              { response := v, timestamp := now, expiresAt := now + dur }) := by
            rcases List.mem_append.mp hmemhd with hin | hin
            · exact absurd (hbad ▸ List.mem_map_of_mem Prod.fst hin) hmem
            · simpa using hin
          have hnothead := sortByTs_append_single_head store
            (CacheManager.getCacheKey hash input os lm,
              { response := v, timestamp := now, expiresAt := now + dur }) hd t
            (fun y hy => hts y hy)
            (fun y hy hyx => hmem (by
              have h2 := List.mem_map_of_mem Prod.fst hy
              rw [hyx] at h2
              exact h2))
            hstore_ne hs
          exact hnothead hdx
        rw [lookup_filter_ne _ _ _ (Ne.symm hhdne)]
        exact lookup_append_right store _ _ hmem
  simp only [CacheManager.get, hlook]
  rw [if_neg (by omega : ¬ now + dur < now2)]

/-- C8: after `set` the store holds at most 500 entries, and inserting
entry #501 into a full store removes exactly one entry — the one with
the globally smallest timestamp — which is the newly inserted entry
only if its timestamp is the oldest. -/
theorem cache_eviction :
    ∀ (hash : String → String) (dur : Nat) (store : CacheStore) (input : String)
      (os : OS) (lm : Bool) (v : String) (now : Nat),
      keysNodup store → store.length ≤ cacheMaxEntries →
      (CacheManager.set hash dur store input os lm v now).length ≤ cacheMaxEntries ∧
      (store.length = cacheMaxEntries →
        CacheManager.getCacheKey hash input os lm ∉ store.map Prod.fst →
        ∃ (kmin : String) (emin : CacheEntry),
          (kmin, emin) ∈ store ++ [(CacheManager.getCacheKey hash input os lm,
              ({ response := v, timestamp := now, expiresAt := now + dur } : CacheEntry))] ∧
          (∀ p ∈ store ++ [(CacheManager.getCacheKey hash input os lm,
              ({ response := v, timestamp := now, expiresAt := now + dur } : CacheEntry))],
            emin.timestamp ≤ (p.2).timestamp) ∧
          CacheManager.set hash dur store input os lm v now =
            (store ++ [(CacheManager.getCacheKey hash input os lm,
              ({ response := v, timestamp := now, expiresAt := now + dur } : CacheEntry))]).filter
              (fun p => p.1 ≠ kmin) ∧
          (CacheManager.set hash dur store input os lm v now).length = cacheMaxEntries ∧
          (kmin = CacheManager.getCacheKey hash input os lm →
            ∀ p ∈ store, now ≤ (p.2).timestamp)) := by
  intro hash dur store input os lm v now hnd hlen
  constructor
  · unfold CacheManager.set
    by_cases hmem : CacheManager.getCacheKey hash input os lm ∈ store.map Prod.fst
    · rw [evict_of_le _ (by rw [upsert_length_mem store _ _ hmem]; exact hlen)]
      rw [upsert_length_mem store _ _ hmem]
      exact hlen
    · rw [upsert_append store _ _ hmem]
      by_cases hlt : store.length + 1 ≤ cacheMaxEntries
      · rw [evict_of_le _ (by simpa using hlt)]
        simpa using hlt
      · have hlen500 : store.length = cacheMaxEntries := by omega
        obtain ⟨hd, t, hs, hev, hmemhd, hmin, hlen2⟩ :=
          evict_full_step store (CacheManager.getCacheKey hash input os lm)
            { response := v, timestamp := now, expiresAt := now + dur } hnd hlen500 hmem
        exact le_of_eq hlen2
  · intro h500 hknotin
    obtain ⟨hd, t, hs, hev, hmemhd, hmin, hlen2⟩ :=
      evict_full_step store (CacheManager.getCacheKey hash input os lm)
        { response := v, timestamp := now, expiresAt := now + dur } hnd h500 hknotin
    refine ⟨hd.1, hd.2, by simpa using hmemhd, hmin, ?_, ?_, ?_⟩
    · unfold CacheManager.set
      rw [upsert_append store _ _ hknotin]
      exact hev
    · unfold CacheManager.set
      rw [upsert_append store _ _ hknotin]
      exact hlen2
    · intro hkeq p hp
      have hdx : hd = (CacheManager.getCacheKey hash input os lm,
          { response := v, timestamp := now, expiresAt := now + dur }) := by
        rcases List.mem_append.mp hmemhd with hin | hin
        · exact absurd (hkeq ▸ List.mem_map_of_mem Prod.fst hin) hknotin
        · simpa using hin
      have hle := hmin p (List.mem_append_left _ hp)
      rw [hdx] at hle
      exact hle

theorem wKey_injective : Function.Injective wKey := by
  intro a b h
  have hl := congrArg List.length (congrArg String.data h)
  simpa [wKey] using hl

theorem bigStore_nodup : keysNodup bigStore := by
  unfold keysNodup
  have hmap : bigStore.map Prod.fst = (List.range cacheMaxEntries).map wKey := by
    simp [bigStore, List.map_map, Function.comp]
  rw [hmap]
  exact List.Nodup.map wKey_injective (List.nodup_range _)

theorem bigStore_length : bigStore.length = cacheMaxEntries := by
  simp [bigStore]

theorem keyW_not_mem :
    CacheManager.getCacheKey id "input" osLinux false ∉ bigStore.map Prod.fst := by
  intro hmem
  have hmap : bigStore.map Prod.fst = (List.range cacheMaxEntries).map wKey := by
    simp [bigStore, List.map_map, Function.comp]
  rw [hmap] at hmem
  obtain ⟨i, _, hi⟩ := List.mem_map.mp hmem
  have hdata : List.replicate i 'a' =
      (CacheManager.getCacheKey id "input" osLinux false).data :=
    congrArg String.data hi
  have hpipe : '|' ∈ (CacheManager.getCacheKey id "input" osLinux false).data := by decide
  rw [← hdata] at hpipe
  exact absurd (List.eq_of_mem_replicate hpipe) (by decide)

/-- C7 witness: a round trip through an empty store. -/
theorem cache_roundtrip_witness :
    (CacheManager.get id (CacheManager.set id 3600000 [] "ls" osLinux false "resp" 5)
        "ls" osLinux false 5).1 = some "resp" :=
  (cache_roundtrip id 3600000 [] "ls" osLinux false "resp" 5 5
    (by simp [keysNodup]) (by simp [cacheMaxEntries]) (by simp) (by omega)).1

/-- C8 witness: inserting a fresh key into a full 500-entry store
leaves exactly 500 entries. -/
theorem cache_eviction_witness :
    (CacheManager.set id 3600000 bigStore "input" osLinux false "resp" 1000).length
      = cacheMaxEntries := by
  obtain ⟨kmin, emin, _, _, _, hlen, _⟩ :=
    (cache_eviction id 3600000 bigStore "input" osLinux false "resp" 1000
      bigStore_nodup (le_of_eq bigStore_length)).2 bigStore_length keyW_not_mem
  exact hlen
